import Mathlib

/-!
Shallow embedding of the spaced-repetition scheduling engine
(`SpacedRepetitionService` in `src/frontend/lib/spacedRepetitionService.ts`).

Modelling conventions:
* timestamps (`reviewDate`, `nextReview`, `date`, `now`, `today`) are integer
  millisecond values (`Int`), as returned by `Date.getTime()`;
* the source's floating-point numbers (`easeFactor`, `averageQuality`) are
  modelled as exact rationals; every constant of the source (`0.1`, `0.08`,
  `0.02`, `1.3`, `2.5`, `0.2`, `0.6`) is an exact binary-independent literal
  and every concrete scenario proved below evaluates identically in IEEE
  doubles and in exact arithmetic;
* `localStorage` reads are modelled by the `Stored` type: a key can be absent,
  present but unparseable (the source's `catch \x7b return []; \x7d` branch), or a
  parsed list;
* JavaScript quirks are kept: `Math.round` is floor of `x + 1/2`,
  `existingReview?.interval || 1` falls back on a stored `0`, array `sort`
  with a comparator is a stable sort (insertion sort here), `find` returns
  the first match.
-/

namespace StudyForge

/-- The `CardReview` interface: one record per `(cardId, studyPackId)` pair. -/
structure CardReview where
  cardId : String
  studyPackId : String
  quality : Int
  reviewDate : Int
  interval : Int
  easeFactor : ℚ
  repetitions : Int
  nextReview : Int
  deriving DecidableEq, Repr

/-- The `StudySession` interface of the spaced-repetition service: one daily
stat record per `(studyPackId, date)`, with `date` a local-midnight
timestamp. -/
structure StudySession where
  studyPackId : String
  date : Int
  cardsReviewed : Int
  averageQuality : ℚ
  deriving DecidableEq, Repr

/-- A flashcard as the engine sees it: the engine only ever reads `card.id`;
all other fields are carried through unchanged and are irrelevant here. -/
structure Flashcard where
  id : String
  deriving DecidableEq, Repr

/-- The augmented object `getDueCards` pushes for a due card. -/
structure DueCard where
  id : String
  lastReview : Option Int
  nextReview : Int
  interval : Int
  repetitions : Int
  deriving DecidableEq, Repr

/-- The augmented object `getUpcomingCards` pushes for a scheduled card. -/
structure UpcomingCard where
  id : String
  nextReview : Int
  interval : Int
  deriving DecidableEq, Repr

/-- Milliseconds per day: the source writes `24 * 60 * 60 * 1000` for the
next-review offset and `1000 * 60 * 60 * 24` for the streak day difference. -/
def msPerDay : Int := 24 * 60 * 60 * 1000

/-- JavaScript `Math.round`: round half toward positive infinity. -/
def jsRound (x : ℚ) : Int := ⌊x + 1 / 2⌋

/-- The lookup predicate `r.cardId === cardId && r.studyPackId === studyPackId`
used by `find` and (negated) by `filter` in the source. -/
def reviewMatches (studyPackId cardId : String) (r : CardReview) : Bool :=
  r.cardId == cardId && r.studyPackId == studyPackId

/-- `reviews.find(r => r.cardId === cardId && r.studyPackId === studyPackId)`. -/
def findReview (reviews : List CardReview) (studyPackId cardId : String) :
    Option CardReview :=
  reviews.find? (reviewMatches studyPackId cardId)

/-- New ease factor (`recordReview`, lines 80-86): `2.5` for a first review,
otherwise `max(1.3, old + (0.1 - (5 - q) * (0.08 + (5 - q) * 0.02)))`. -/
def newEaseFactor (existing : Option CardReview) (quality : Int) : ℚ :=
  match existing with
  | some r =>
      max (13 / 10)
        (r.easeFactor +
          (1 / 10 - (5 - (quality : ℚ)) * (2 / 25 + (5 - (quality : ℚ)) * (1 / 50))))
  | none => 5 / 2

/-- New repetition count: reset to `0` when `quality < 3`, else incremented
(`1` when there is no prior record). -/
def newRepetitions (existing : Option CardReview) (quality : Int) : Int :=
  match existing with
  | some r => if quality < 3 then 0 else r.repetitions + 1
  | none => if quality < 3 then 0 else 1

/-- `existingReview?.interval || 1`: JavaScript `||` takes the fallback `1`
when there is no record or when the stored interval is `0` (falsy). -/
def fallbackInterval (existing : Option CardReview) : Int :=
  match existing with
  | some r => if r.interval = 0 then 1 else r.interval
  | none => 1

/-- Base interval (lines 88-94): `1` day at zero repetitions, `6` days at one,
otherwise `Math.round((existingReview?.interval || 1) * easeFactor)`. -/
def baseInterval (existing : Option CardReview) (easeFactor : ℚ)
    (repetitions : Int) : Int :=
  if repetitions = 0 then 1
  else if repetitions = 1 then 6
  else jsRound ((fallbackInterval existing : ℚ) * easeFactor)

/-- The `switch (quality)` adjustment (lines 97-110); any quality outside
`1..4` hits no case and leaves the interval unchanged. -/
def adjustInterval (quality : Int) (interval : Int) : Int :=
  if quality = 1 then max 1 (jsRound ((interval : ℚ) * (1 / 5)))
  else if quality = 2 then max 1 (jsRound ((interval : ℚ) * (3 / 5)))
  else if quality = 3 then interval
  else if quality = 4 then jsRound ((interval : ℚ) * (13 / 10))
  else interval

/-- The new `CardReview` record assembled by `recordReview` before storing:
`nextReview = now + interval * 24 * 60 * 60 * 1000`. -/
def buildReview (existing : Option CardReview) (studyPackId cardId : String)
    (quality : Int) (now : Int) : CardReview :=
  let easeFactor := newEaseFactor existing quality
  let repetitions := newRepetitions existing quality
  let interval := adjustInterval quality (baseInterval existing easeFactor repetitions)
  { cardId := cardId, studyPackId := studyPackId, quality := quality,
    reviewDate := now, interval := interval, easeFactor := easeFactor,
    repetitions := repetitions, nextReview := now + interval * msPerDay }

/-- The session-stat lookup predicate of `updateSessionStats`:
same pack and `sessionDate.getTime() === today.getTime()`. -/
def sessionMatches (studyPackId : String) (today : Int) (s : StudySession) : Bool :=
  s.studyPackId == studyPackId && s.date == today

/-- In-place mutation of the found session (lines 174-176):
`total = avg * count + quality; count += 1; avg = total / count`. -/
def bumpSession (quality : Int) (s : StudySession) : StudySession :=
  let totalQuality := s.averageQuality * (s.cardsReviewed : ℚ) + (quality : ℚ)
  { s with cardsReviewed := s.cardsReviewed + 1,
           averageQuality := totalQuality / ((s.cardsReviewed : ℚ) + 1) }

/-- `updateSessionStats`: mutate the first session matching `(pack, today)`,
or push a fresh record `{cardsReviewed: 1, averageQuality: quality}` dated at
the local midnight `today`. -/
def upsertSession (studyPackId : String) (quality : Int) (today : Int) :
    List StudySession → List StudySession
  | [] => [{ studyPackId := studyPackId, date := today, cardsReviewed := 1,
             averageQuality := (quality : ℚ) }]
  | s :: rest =>
      if sessionMatches studyPackId today s then bumpSession quality s :: rest
      else s :: upsertSession studyPackId quality today rest

/-- The engine state: the two record collections behind the storage keys
`studyForge_sr_reviews` and `studyForge_sr_sessions`. -/
structure SRState where
  reviews : List CardReview
  sessions : List StudySession
  deriving DecidableEq, Repr

/-- `recordReview(studyPackId, cardId, quality)`: delete-then-push the review
record and upsert today's session stat.  `now` is the clock reading and
`today` its local-midnight truncation (the source derives both from
`new Date()`). -/
def recordReview (st : SRState) (studyPackId cardId : String) (quality : Int)
    (now today : Int) : SRState :=
  let existing := findReview st.reviews studyPackId cardId
  let newR := buildReview existing studyPackId cardId quality now
  { reviews := (st.reviews.filter fun r => !reviewMatches studyPackId cardId r) ++ [newR],
    sessions := upsertSession studyPackId quality today st.sessions }

/-- The entry `getDueCards` pushes for one card, or `none` when the card is
not due: due means no stored review, or `nextReview <= now`.  An existing
record always has a truthy `reviewDate`/`nextReview` Date object, so
`lastReview` is its review date; `interval || 0` and `repetitions || 0` are
the identity on integers except that they are `0` exactly when the field is. -/
def dueEntry (reviews : List CardReview) (studyPackId : String) (now : Int)
    (card : Flashcard) : Option DueCard :=
  match findReview reviews studyPackId card.id with
  | none =>
      some { id := card.id, lastReview := none, nextReview := now,
             interval := 0, repetitions := 0 }
  | some r =>
      if r.nextReview ≤ now then
        some { id := card.id, lastReview := some r.reviewDate,
               nextReview := r.nextReview, interval := r.interval,
               repetitions := r.repetitions }
      else none

/-- The due-list comparator of `getDueCards` as a relation (`cmp(a, b) <= 0`):
cards without a prior review sort first, then ascending `nextReview`. -/
def DueLE (a b : DueCard) : Prop :=
  if a.lastReview = none ∧ b.lastReview ≠ none then True
  else if a.lastReview ≠ none ∧ b.lastReview = none then False
  else a.nextReview ≤ b.nextReview

instance : DecidableRel DueLE := fun a b => by
  unfold DueLE
  infer_instance

instance : IsTotal DueCard DueLE where
  total a b := by
    unfold DueLE
    rcases ha : a.lastReview with _ | x <;> rcases hb : b.lastReview with _ | y <;>
      simp <;> omega

instance : IsTrans DueCard DueLE where
  trans a b c := by
    unfold DueLE
    rcases ha : a.lastReview with _ | x <;> rcases hb : b.lastReview with _ | y <;>
      rcases hc : c.lastReview with _ | z <;> simp <;> omega

/-- `getDueCards(studyPackId, flashcards)`: collect due entries in card order,
then sort with the new-cards-first comparator (JavaScript `sort` with a
consistent comparator is a stable sort; insertion sort realises it). -/
def getDueCards (reviews : List CardReview) (studyPackId : String)
    (flashcards : List Flashcard) (now : Int) : List DueCard :=
  (flashcards.filterMap (dueEntry reviews studyPackId now)).insertionSort DueLE

/-- The entry `getUpcomingCards` pushes for one card: only cards with a stored
review strictly in the future. -/
def upcomingEntry (reviews : List CardReview) (studyPackId : String) (now : Int)
    (card : Flashcard) : Option UpcomingCard :=
  match findReview reviews studyPackId card.id with
  | some r =>
      if now < r.nextReview then
        some { id := card.id, nextReview := r.nextReview, interval := r.interval }
      else none
  | none => none

/-- The upcoming-list comparator: ascending `nextReview`. -/
def UpLE (a b : UpcomingCard) : Prop := a.nextReview ≤ b.nextReview

instance : DecidableRel UpLE := fun a b => by
  unfold UpLE
  infer_instance

instance : IsTotal UpcomingCard UpLE where
  total a b := Int.le_total a.nextReview b.nextReview

instance : IsTrans UpcomingCard UpLE where
  trans _ _ _ hab hbc := Int.le_trans hab hbc

/-- The future-dated entries of `getUpcomingCards` before sort and `slice`. -/
def upcomingAll (reviews : List CardReview) (studyPackId : String)
    (flashcards : List Flashcard) (now : Int) : List UpcomingCard :=
  flashcards.filterMap (upcomingEntry reviews studyPackId now)

/-- `getUpcomingCards(studyPackId, flashcards, limit)`: future-dated entries,
sorted ascending by `nextReview`, truncated by `slice(0, limit)`. -/
def getUpcomingCards (reviews : List CardReview) (studyPackId : String)
    (flashcards : List Flashcard) (now : Int) (limit : Nat) : List UpcomingCard :=
  ((upcomingAll reviews studyPackId flashcards now).insertionSort UpLE).take limit

/-- The session sort comparator `(a, b) => b.date - a.date`: descending date. -/
def SessionGE (a b : StudySession) : Prop := b.date ≤ a.date

instance : DecidableRel SessionGE := fun a b => by
  unfold SessionGE
  infer_instance

instance : IsTotal StudySession SessionGE where
  total a b := Int.le_total b.date a.date

instance : IsTrans StudySession SessionGE where
  trans _ _ _ hab hbc := Int.le_trans hbc hab

/-- The streak loop of `calculateStreak` (lines 201-211): walk the sessions in
descending date order; `daysDiff = Math.floor((currentDate - sessionDate) /
msPerDay)`; continue while `daysDiff === streak || (streak === 0 && daysDiff
<= 1)`, moving `currentDate` to the matched session's date; stop otherwise. -/
def streakLoop : List StudySession → Int → Int → Int
  | [], streak, _ => streak
  | s :: rest, streak, currentDate =>
      let daysDiff := (currentDate - s.date).fdiv msPerDay
      if daysDiff = streak ∨ (streak = 0 ∧ daysDiff ≤ 1) then
        streakLoop rest (streak + 1) s.date
      else streak

/-- `calculateStreak(studyPackId)`: filter the deck's sessions, sort them by
date descending, return `0` when empty, else run the streak loop starting at
today's local midnight. -/
def calculateStreak (sessions : List StudySession) (studyPackId : String)
    (todayMidnight : Int) : Int :=
  let packSessions :=
    (sessions.filter fun s => s.studyPackId == studyPackId).insertionSort SessionGE
  if packSessions.length = 0 then 0 else streakLoop packSessions 0 todayMidnight

/-- Result shape of `getTodayStats`. -/
structure TodayStats where
  reviewed : Nat
  learned : Nat
  accuracy : ℚ
  streak : Int
  deriving DecidableEq, Repr

/-- `getTodayStats(studyPackId)`: counts over the reviews whose `reviewDate`
lies in today's local calendar window, plus the streak. -/
def getTodayStats (reviews : List CardReview) (sessions : List StudySession)
    (studyPackId : String) (todayMidnight : Int) : TodayStats :=
  let tomorrow := todayMidnight + msPerDay
  let todayReviews := reviews.filter fun r =>
    r.studyPackId == studyPackId && decide (todayMidnight ≤ r.reviewDate) &&
      decide (r.reviewDate < tomorrow)
  let newCards := (todayReviews.filter fun r => r.repetitions == 1).length
  let accuracy : ℚ :=
    if 0 < todayReviews.length then
      (todayReviews.foldl (fun sum r => sum + if 3 ≤ r.quality then 1 else 0) (0 : ℚ)) /
        (todayReviews.length : ℚ)
    else 0
  { reviewed := todayReviews.length, learned := newCards, accuracy := accuracy,
    streak := calculateStreak sessions studyPackId todayMidnight }

/-- Raw content of a persistent-store key: absent, present but unparseable,
or a parsed record list.  The source's `catch` branch returns `[]` for the
malformed case, so no exception ever reaches an engine caller. -/
inductive Stored (α : Type) where
  | absent : Stored α
  | malformed : Stored α
  | valid : List α → Stored α
  deriving DecidableEq

/-- `getReviews()`: `[]` for a missing key and for unparseable data. -/
def getReviews : Stored CardReview → List CardReview
  | .absent => []
  | .malformed => []
  | .valid l => l

/-- `getSessions()`: `[]` for a missing key and for unparseable data. -/
def getSessions : Stored StudySession → List StudySession
  | .absent => []
  | .malformed => []
  | .valid l => l

/-- The engine state as loaded from the two storage keys. -/
def loadState (r : Stored CardReview) (s : Stored StudySession) : SRState :=
  { reviews := getReviews r, sessions := getSessions s }

/-- Store states reachable from the empty store by `recordReview` calls with
arbitrary quality values. -/
inductive Reachable : SRState → Prop
  | init : Reachable { reviews := [], sessions := [] }
  | step (st : SRState) (studyPackId cardId : String) (quality now today : Int) :
      Reachable st → Reachable (recordReview st studyPackId cardId quality now today)

/-- Store states reachable from the empty store by `recordReview` calls whose
quality stays in the documented range `[1, 4]`. -/
inductive ReachableValid : SRState → Prop
  | init : ReachableValid { reviews := [], sessions := [] }
  | step (st : SRState) (studyPackId cardId : String) (quality now today : Int) :
      ReachableValid st → 1 ≤ quality → quality ≤ 4 →
      ReachableValid (recordReview st studyPackId cardId quality now today)

/-! Concrete fixtures used by counterexamples and witnesses. -/

def exDeck : String := "deck1"

def exCard : String := "card1"

def cardB : String := "card2"

/-- The empty engine state (fresh store). -/
def emptyState : SRState := { reviews := [], sessions := [] }

/-- Fixture for the C3 scenario: `repetitions = 2`, `easeFactor = 2.5`,
`intervalDays = 6`. -/
def c3Old : CardReview :=
  { cardId := exCard, studyPackId := exDeck, quality := 3, reviewDate := 0,
    interval := 6, easeFactor := 5 / 2, repetitions := 2, nextReview := 50 }

/-- Fixture state holding only `c3Old`. -/
def c3State : SRState := { reviews := [c3Old], sessions := [] }

/-- C4 fixture: three consecutive daily stats on days T-2, T-1, T for
T = `172800000` (two days after the epoch midnight). -/
def c4Consecutive : List StudySession :=
  [{ studyPackId := exDeck, date := 0, cardsReviewed := 1, averageQuality := 3 },
   { studyPackId := exDeck, date := 86400000, cardsReviewed := 1, averageQuality := 3 },
   { studyPackId := exDeck, date := 172800000, cardsReviewed := 1, averageQuality := 3 }]

/-- C7 fixture: a reviewed card due at 50ms. -/
def c7ReviewA : CardReview :=
  { cardId := exCard, studyPackId := exDeck, quality := 3, reviewDate := 0,
    interval := 1, easeFactor := 5 / 2, repetitions := 1, nextReview := 50 }

/-- C7 fixture: a reviewed card due at 100ms. -/
def c7ReviewB : CardReview :=
  { cardId := cardB, studyPackId := exDeck, quality := 3, reviewDate := 0,
    interval := 1, easeFactor := 5 / 2, repetitions := 1, nextReview := 100 }

def c7Reviews : List CardReview := [c7ReviewA, c7ReviewB]

def c7Cards : List Flashcard := [{ id := exCard }, { id := cardB }]

/-- Evaluation rule for `jsRound` at rational literals. -/
theorem jsRound_eq {x : ℚ} {n : Int} (h1 : (n : ℚ) ≤ x + 1 / 2)
    (h2 : x + 1 / 2 < n + 1) : jsRound x = n := by
  unfold jsRound
  exact Int.floor_eq_iff.mpr ⟨h1, h2⟩

theorem buildReview_cardId (ex : Option CardReview) (p c : String) (q now : Int) :
    (buildReview ex p c q now).cardId = c := rfl

theorem buildReview_studyPackId (ex : Option CardReview) (p c : String) (q now : Int) :
    (buildReview ex p c q now).studyPackId = p := rfl

theorem buildReview_quality (ex : Option CardReview) (p c : String) (q now : Int) :
    (buildReview ex p c q now).quality = q := rfl

theorem buildReview_reviewDate (ex : Option CardReview) (p c : String) (q now : Int) :
    (buildReview ex p c q now).reviewDate = now := rfl

theorem buildReview_easeFactor (ex : Option CardReview) (p c : String) (q now : Int) :
    (buildReview ex p c q now).easeFactor = newEaseFactor ex q := rfl

theorem buildReview_repetitions (ex : Option CardReview) (p c : String) (q now : Int) :
    (buildReview ex p c q now).repetitions = newRepetitions ex q := rfl

theorem buildReview_interval (ex : Option CardReview) (p c : String) (q now : Int) :
    (buildReview ex p c q now).interval =
      adjustInterval q (baseInterval ex (newEaseFactor ex q) (newRepetitions ex q)) := rfl

theorem buildReview_nextReview (ex : Option CardReview) (p c : String) (q now : Int) :
    (buildReview ex p c q now).nextReview =
      now + (buildReview ex p c q now).interval * msPerDay := rfl

theorem reviewMatches_buildReview (ex : Option CardReview) (p c : String) (q now : Int) :
    reviewMatches p c (buildReview ex p c q now) = true := by
  simp [reviewMatches, buildReview_cardId, buildReview_studyPackId]

/-- The delete-then-push update makes the lookup find exactly the freshly
built record. -/
theorem findReview_recordReview (st : SRState) (studyPackId cardId : String)
    (quality now today : Int) :
    findReview (recordReview st studyPackId cardId quality now today).reviews
        studyPackId cardId =
      some (buildReview (findReview st.reviews studyPackId cardId)
        studyPackId cardId quality now) := by
  show ((st.reviews.filter fun r => !reviewMatches studyPackId cardId r) ++
      [buildReview (findReview st.reviews studyPackId cardId) studyPackId cardId
        quality now]).find? (reviewMatches studyPackId cardId) = _
  rw [List.find?_append]
  have h1 : (st.reviews.filter fun r => !reviewMatches studyPackId cardId r).find?
      (reviewMatches studyPackId cardId) = none := by
    rw [List.find?_eq_none]
    intro x hx
    rw [List.mem_filter] at hx
    simpa using hx.2
  rw [h1, List.find?_cons_of_pos _ (reviewMatches_buildReview _ _ _ _ _)]
  rfl

/-- Number of stored records matching a `(studyPackId, cardId)` pair. -/
def matchCount (reviews : List CardReview) (studyPackId cardId : String) : Nat :=
  (reviews.filter (reviewMatches studyPackId cardId)).length

/-- After `recordReview`, the pair's records are exactly the new one. -/
theorem filter_matches_recordReview (st : SRState) (studyPackId cardId : String)
    (quality now today : Int) :
    (recordReview st studyPackId cardId quality now today).reviews.filter
        (reviewMatches studyPackId cardId) =
      [buildReview (findReview st.reviews studyPackId cardId) studyPackId cardId
        quality now] := by
  show ((st.reviews.filter fun r => !reviewMatches studyPackId cardId r) ++
      [_]).filter (reviewMatches studyPackId cardId) = _
  rw [List.filter_append, List.filter_filter]
  simp [reviewMatches_buildReview]

/-- The `switch` has no case for a quality outside `1..4`. -/
theorem adjustInterval_out_of_range (q i : Int) (h : q < 1 ∨ 4 < q) :
    adjustInterval q i = i := by
  unfold adjustInterval
  rw [if_neg (by omega), if_neg (by omega), if_neg (by omega), if_neg (by omega)]

theorem sessionMatches_bumpSession (p : String) (t q : Int) (s : StudySession) :
    sessionMatches p t (bumpSession q s) = sessionMatches p t s := rfl

/-- When no session matches, `updateSessionStats` pushes a fresh record. -/
theorem upsertSession_of_none (p : String) (q today : Int) :
    ∀ (sessions : List StudySession),
      sessions.find? (sessionMatches p today) = none →
      upsertSession p q today sessions =
        sessions ++ [{ studyPackId := p, date := today, cardsReviewed := 1,
                       averageQuality := (q : ℚ) }]
  | [], _ => rfl
  | s :: rest, h => by
      rw [List.find?_eq_none] at h
      have hs : sessionMatches p today s = false := by
        simpa using h s (List.mem_cons_self s rest)
      have hrest : rest.find? (sessionMatches p today) = none := by
        rw [List.find?_eq_none]
        exact fun x hx => h x (List.mem_cons_of_mem s hx)
      show (if sessionMatches p today s then _ else
          s :: upsertSession p q today rest) = _
      rw [if_neg (by simp [hs]), upsertSession_of_none p q today rest hrest]
      rfl

/-- When a session matches, `updateSessionStats` bumps the first match in
place; the lookup afterwards finds the bumped record and the list length is
unchanged. -/
theorem upsertSession_of_some (p : String) (q today : Int) :
    ∀ (sessions : List StudySession) (s₀ : StudySession),
      sessions.find? (sessionMatches p today) = some s₀ →
      (upsertSession p q today sessions).find? (sessionMatches p today) =
          some (bumpSession q s₀) ∧
        (upsertSession p q today sessions).length = sessions.length
  | [], _, h => by simp at h
  | s :: rest, s₀, h => by
      by_cases hs : sessionMatches p today s = true
      · rw [List.find?_cons_of_pos _ hs] at h
        obtain rfl : s = s₀ := by simpa using h
        constructor
        · show (if sessionMatches p today s then bumpSession q s :: rest
              else _).find? _ = _
          rw [if_pos hs]
          exact List.find?_cons_of_pos _ (by rw [sessionMatches_bumpSession]; exact hs)
        · show (if sessionMatches p today s then bumpSession q s :: rest
              else _).length = _
          rw [if_pos hs]
          rfl
      · have hs' : sessionMatches p today s = false := by
          simpa using hs
        rw [List.find?_cons_of_neg _ (by simp [hs'])] at h
        have ih := upsertSession_of_some p q today rest s₀ h
        constructor
        · show (if sessionMatches p today s then _
              else s :: upsertSession p q today rest).find? _ = _
          rw [if_neg (by simp [hs']), List.find?_cons_of_neg _ (by simp [hs'])]
          exact ih.1
        · show (if sessionMatches p today s then _
              else s :: upsertSession p q today rest).length = _
          rw [if_neg (by simp [hs'])]
          simpa using ih.2

/-- In-place bumping keeps every per-key record count unchanged. -/
theorem filter_upsertSession_of_some (p : String) (q today : Int)
    (d : String) (day : Int) :
    ∀ (sessions : List StudySession) (s₀ : StudySession),
      sessions.find? (sessionMatches p today) = some s₀ →
      ((upsertSession p q today sessions).filter (sessionMatches d day)).length =
        (sessions.filter (sessionMatches d day)).length
  | [], _, h => by simp at h
  | s :: rest, s₀, h => by
      by_cases hs : sessionMatches p today s = true
      · show ((if sessionMatches p today s then bumpSession q s :: rest
            else _).filter _).length = _
        rw [if_pos hs]
        by_cases hd : sessionMatches d day s = true
        · rw [List.filter_cons_of_pos (by rw [sessionMatches_bumpSession]; exact hd),
            List.filter_cons_of_pos hd]
          rfl
        · have hd' : sessionMatches d day s = false := by simpa using hd
          rw [List.filter_cons_of_neg (by rw [sessionMatches_bumpSession]; simp [hd']),
            List.filter_cons_of_neg (by simp [hd'])]
      · have hs' : sessionMatches p today s = false := by simpa using hs
        rw [List.find?_cons_of_neg _ (by simp [hs'])] at h
        have ih := filter_upsertSession_of_some p q today d day rest s₀ h
        show ((if sessionMatches p today s then _
            else s :: upsertSession p q today rest).filter _).length = _
        rw [if_neg (by simp [hs'])]
        by_cases hd : sessionMatches d day s = true
        · rw [List.filter_cons_of_pos hd, List.filter_cons_of_pos hd]
          simpa using ih
        · have hd' : sessionMatches d day s = false := by simpa using hd
          rw [List.filter_cons_of_neg (by simp [hd']),
            List.filter_cons_of_neg (by simp [hd'])]
          exact ih

/-- C1: for `recordReview(deckId, cardId, quality)` with `quality ∈ [1,4]`,
the stored record's ease factor is `2.5` when there was no prior state and
otherwise `max(1.3, oldEase + (0.1 - (5 - quality) * (0.08 + (5 - quality) *
0.02)))`; its repetition count is `0` when `quality < 3`, else
`oldRepetitions + 1` (`1` with no prior state). -/
theorem recordReview_ease_and_repetitions (st : SRState)
    (studyPackId cardId : String) (quality now today : Int)
    (h1 : 1 ≤ quality) (h4 : quality ≤ 4) :
    (findReview (recordReview st studyPackId cardId quality now today).reviews
        studyPackId cardId).map (fun r => (r.easeFactor, r.repetitions)) =
      some (match findReview st.reviews studyPackId cardId with
        | none => (5 / 2, if quality < 3 then 0 else 1)
        | some old =>
            (max (13 / 10)
              (old.easeFactor +
                (1 / 10 - (5 - (quality : ℚ)) *
                  (2 / 25 + (5 - (quality : ℚ)) * (1 / 50)))),
             if quality < 3 then 0 else old.repetitions + 1)) := by
  rw [findReview_recordReview]
  cases h : findReview st.reviews studyPackId cardId with
  | none =>
      simp [buildReview_easeFactor, buildReview_repetitions, newEaseFactor,
        newRepetitions]
  | some old =>
      simp [buildReview_easeFactor, buildReview_repetitions, newEaseFactor,
        newRepetitions]

/-- C1 witness: the theorem applied at the empty store with quality 3. -/
theorem recordReview_ease_and_repetitions_witness :
    (findReview (recordReview emptyState exDeck exCard 3 0 0).reviews
        exDeck exCard).map (fun r => (r.easeFactor, r.repetitions)) =
      some (5 / 2, 1) := by
  have h := recordReview_ease_and_repetitions emptyState exDeck exCard 3 0 0
    (by decide) (by decide)
  simpa [emptyState, findReview] using h

/-- C2: a first review graded 4 yields `repetitions = 1`, an interval of
`round(6 * 1.3) = 8` days (the easy multiplier applies on top of the
repetitions-1 base of 6), and `nextReview = now + 8 * 24h` in exact
millisecond arithmetic. -/
theorem recordReview_new_card_easy (st : SRState) (studyPackId cardId : String)
    (now today : Int) (h : findReview st.reviews studyPackId cardId = none) :
    (findReview (recordReview st studyPackId cardId 4 now today).reviews
        studyPackId cardId).map (fun r => (r.repetitions, r.interval, r.nextReview)) =
      some (1, 8, now + 8 * (24 * 60 * 60 * 1000)) := by
  rw [findReview_recordReview, h]
  have e1 : newRepetitions none 4 = 1 := by norm_num [newRepetitions]
  have e2 : newEaseFactor none 4 = 5 / 2 := rfl
  have e3 : baseInterval none (5 / 2) 1 = 6 := by norm_num [baseInterval]
  have e4 : adjustInterval 4 6 = 8 := by
    unfold adjustInterval
    norm_num
    exact jsRound_eq (by norm_num) (by norm_num)
  simp [Option.map_some, buildReview_repetitions, buildReview_interval,
    buildReview_nextReview, e1, e2, e3, e4, msPerDay]

/-- C2 witness: the theorem applied at the empty store. -/
theorem recordReview_new_card_easy_witness :
    (findReview (recordReview emptyState exDeck exCard 4 7 0).reviews
        exDeck exCard).map (fun r => (r.repetitions, r.interval, r.nextReview)) =
      some (1, 8, 7 + 8 * (24 * 60 * 60 * 1000)) :=
  recordReview_new_card_easy emptyState exDeck exCard 7 0 (by decide)

/-- C3 counterexample: on the claimed scenario (`repetitions = 2`,
`easeFactor = 2.5`, `intervalDays = 6`, quality 3) the code multiplies the old
interval by the updated ease factor `2.36`, storing `round(6 * 2.36) = 14`
days, not the claimed `round(6 * 2.5) = 15`. -/
theorem recordReview_reps2_good_not_15 :
    (findReview (recordReview c3State exDeck exCard 3 100 0).reviews
        exDeck exCard).map (fun r => r.interval) = some 14 ∧
    (findReview (recordReview c3State exDeck exCard 3 100 0).reviews
        exDeck exCard).map (fun r => r.interval) ≠ some 15 := by
  have hfind : findReview c3State.reviews exDeck exCard = some c3Old := rfl
  have e1 : newEaseFactor (some c3Old) 3 = 59 / 25 := by
    norm_num [newEaseFactor, c3Old, max_def]
  have e2 : newRepetitions (some c3Old) 3 = 3 := by norm_num [newRepetitions, c3Old]
  have e3 : baseInterval (some c3Old) (59 / 25) 3 = 14 := by
    unfold baseInterval fallbackInterval
    norm_num [c3Old]
    exact jsRound_eq (by norm_num) (by norm_num)
  have hmain : (findReview (recordReview c3State exDeck exCard 3 100 0).reviews
      exDeck exCard).map (fun r => r.interval) = some 14 := by
    rw [findReview_recordReview, hfind]
    simp [Option.map_some, buildReview_interval, e1, e2, e3, adjustInterval]
  exact ⟨hmain, by rw [hmain]; decide⟩

/-- C3 amended: with `repetitions = 2`, `easeFactor = 2.5`, `intervalDays = 6`
and quality 3, the new ease factor is `2.36` and the new interval is
`round(6 * 2.36) = 14` days (the source multiplies by the updated ease
factor, not the old one); quality 3 indeed applies no further multiplier. -/
theorem recordReview_reps2_good_interval (st : SRState)
    (studyPackId cardId : String) (now today : Int) (old : CardReview)
    (h : findReview st.reviews studyPackId cardId = some old)
    (hreps : old.repetitions = 2) (hease : old.easeFactor = 5 / 2)
    (hint : old.interval = 6) :
    (findReview (recordReview st studyPackId cardId 3 now today).reviews
        studyPackId cardId).map (fun r => (r.easeFactor, r.interval)) =
      some (59 / 25, 14) := by
  rw [findReview_recordReview, h]
  have e1 : newEaseFactor (some old) 3 = 59 / 25 := by
    norm_num [newEaseFactor, hease, max_def]
  have e2 : newRepetitions (some old) 3 = 3 := by norm_num [newRepetitions, hreps]
  have e3 : baseInterval (some old) (59 / 25) 3 = 14 := by
    unfold baseInterval fallbackInterval
    norm_num [hint]
    exact jsRound_eq (by norm_num) (by norm_num)
  simp [Option.map_some, buildReview_easeFactor, buildReview_interval, e1, e2, e3,
    adjustInterval]

/-- C3 amended witness: the amended theorem applied to the fixture state. -/
theorem recordReview_reps2_good_interval_witness :
    (findReview (recordReview c3State exDeck exCard 3 100 0).reviews
        exDeck exCard).map (fun r => (r.easeFactor, r.interval)) =
      some (59 / 25, 14) :=
  recordReview_reps2_good_interval c3State exDeck exCard 100 0 c3Old rfl rfl rfl rfl

/-- C5 counterexample: `recordReview` performs no validation; the
out-of-range quality 5 is neither rejected nor clamped — the call proceeds
through the scheduling math and stores a record with `quality = 5`,
`repetitions = 1` and the unadjusted base interval `6`. -/
theorem recordReview_out_of_range_not_rejected :
    (findReview (recordReview emptyState exDeck exCard 5 0 0).reviews
        exDeck exCard).map (fun r => (r.quality, r.repetitions, r.interval)) =
      some (5, 1, 6) ∧
    (recordReview emptyState exDeck exCard 5 0 0).reviews.length = 1 := by
  constructor
  · rw [findReview_recordReview]
    decide
  · decide

/-- C5 amended: a quality outside `[1,4]` is not rejected: `recordReview`
runs the scheduling math and stores the record with the out-of-range quality,
the `switch` applying no interval adjustment. -/
theorem recordReview_out_of_range_proceeds (st : SRState)
    (studyPackId cardId : String) (quality now today : Int)
    (h : quality < 1 ∨ 4 < quality) :
    (findReview (recordReview st studyPackId cardId quality now today).reviews
        studyPackId cardId).map (fun r => (r.quality, r.interval)) =
      some (quality,
        baseInterval (findReview st.reviews studyPackId cardId)
          (newEaseFactor (findReview st.reviews studyPackId cardId) quality)
          (newRepetitions (findReview st.reviews studyPackId cardId) quality)) := by
  rw [findReview_recordReview]
  simp [Option.map_some, buildReview_quality, buildReview_interval,
    adjustInterval_out_of_range _ _ h]

/-- C5 amended witness: the amended theorem applied at quality 5. -/
theorem recordReview_out_of_range_proceeds_witness :
    (findReview (recordReview emptyState exDeck exCard 5 0 0).reviews
        exDeck exCard).map (fun r => (r.quality, r.interval)) =
      some (5,
        baseInterval (findReview emptyState.reviews exDeck exCard)
          (newEaseFactor (findReview emptyState.reviews exDeck exCard) 5)
          (newRepetitions (findReview emptyState.reviews exDeck exCard) 5)) :=
  recordReview_out_of_range_proceeds emptyState exDeck exCard 5 0 0 (by decide)

/-- C6: in every state reachable by `recordReview` calls there is at most one
record per `(cardId, studyPackId)` pair, and immediately after
`recordReview(deckId, cardId, q)` the pair's records are exactly the newly
built one (the prior record, if any, is replaced). -/
theorem recordReview_unique_record :
    (∀ st, Reachable st →
      ∀ studyPackId cardId, matchCount st.reviews studyPackId cardId ≤ 1) ∧
    (∀ st studyPackId cardId (quality now today : Int),
      (recordReview st studyPackId cardId quality now today).reviews.filter
          (reviewMatches studyPackId cardId) =
        [buildReview (findReview st.reviews studyPackId cardId) studyPackId cardId
          quality now]) := by
  constructor
  · intro st h
    induction h with
    | init => intro d c; simp [matchCount]
    | step st p c q now today _ ih =>
        intro d c'
        by_cases hsame : d = p ∧ c' = c
        · obtain ⟨rfl, rfl⟩ := hsame
          unfold matchCount
          rw [filter_matches_recordReview]
          simp
        · unfold matchCount
          show (((st.reviews.filter fun r => !reviewMatches p c r) ++
              [buildReview _ p c q now]).filter (reviewMatches d c')).length ≤ 1
          rw [List.filter_append]
          have hnew : reviewMatches d c' (buildReview
              (findReview st.reviews p c) p c q now) = false := by
            unfold reviewMatches
            rw [buildReview_cardId, buildReview_studyPackId]
            rcases (not_and_or.mp hsame) with hd | hc
            · have : (p == d) = false := by
                simpa using fun hpd => hd hpd.symm
              simp [this]
            · have : (c == c') = false := by
                simpa using fun hcc => hc hcc.symm
              simp [this]
          rw [List.filter_cons_of_neg (by simp [hnew])]
          have hsub : List.Sublist
              ((st.reviews.filter fun r => !reviewMatches p c r).filter
                (reviewMatches d c'))
              (st.reviews.filter (reviewMatches d c')) :=
            List.Sublist.filter _ (List.filter_sublist st.reviews)
          simpa using Nat.le_trans hsub.length_le (ih d c')
  · intro st p c q now today
    exact filter_matches_recordReview st p c q now today

/-- C6 witness: the invariant instantiated at a concrete one-step state and
the post-call description at the empty store. -/
theorem recordReview_unique_record_witness :
    matchCount (recordReview emptyState exDeck exCard 3 0 0).reviews exDeck exCard ≤ 1 ∧
    (recordReview emptyState exDeck exCard 3 0 0).reviews.filter
        (reviewMatches exDeck exCard) =
      [buildReview (findReview emptyState.reviews exDeck exCard) exDeck exCard 3 0] := by
  constructor
  · exact recordReview_unique_record.1 _
      (Reachable.step emptyState exDeck exCard 3 0 0 Reachable.init) exDeck exCard
  · exact recordReview_unique_record.2 emptyState exDeck exCard 3 0 0

/-- C8: every reachable store holds at most one `DailySessionStat` per
`(deckId, day)`; each `recordReview` upserts today's record for the deck: an
existing record gets `cardsReviewed + 1` and the incremental mean
`(oldMean * oldCount + quality) / (oldCount + 1)`, otherwise a record with
`cardsReviewed = 1` and `averageQuality = quality` is created, dated at the
local midnight `today`. -/
theorem session_stats_upsert :
    (∀ st, Reachable st → ∀ (deckId : String) (day : Int),
      (st.sessions.filter (sessionMatches deckId day)).length ≤ 1) ∧
    (∀ st (deckId cardId : String) (quality now today : Int),
      (recordReview st deckId cardId quality now today).sessions =
        upsertSession deckId quality today st.sessions) ∧
    (∀ (sessions : List StudySession) (deckId : String) (quality today : Int),
      (sessions.find? (sessionMatches deckId today) = none →
        upsertSession deckId quality today sessions =
          sessions ++ [{ studyPackId := deckId, date := today, cardsReviewed := 1,
                         averageQuality := (quality : ℚ) }]) ∧
      (∀ s, sessions.find? (sessionMatches deckId today) = some s →
        (upsertSession deckId quality today sessions).find?
            (sessionMatches deckId today) =
          some { s with
                 cardsReviewed := s.cardsReviewed + 1,
                 averageQuality := (s.averageQuality * (s.cardsReviewed : ℚ) +
                   (quality : ℚ)) / ((s.cardsReviewed : ℚ) + 1) })) := by
  refine ⟨?_, fun st deckId cardId quality now today => rfl,
    fun sessions deckId quality today =>
      ⟨upsertSession_of_none deckId quality today sessions,
       fun s h => (upsertSession_of_some deckId quality today sessions s h).1⟩⟩
  intro st h
  induction h with
  | init => intro d day; simp
  | step st p c q now today _ ih =>
      intro d day
      show ((upsertSession p q today st.sessions).filter
          (sessionMatches d day)).length ≤ 1
      cases hfind : st.sessions.find? (sessionMatches p today) with
      | some s₀ =>
          rw [filter_upsertSession_of_some p q today d day st.sessions s₀ hfind]
          exact ih d day
      | none =>
          rw [upsertSession_of_none p q today st.sessions hfind, List.filter_append]
          by_cases hkey : d = p ∧ day = today
          · obtain ⟨rfl, rfl⟩ := hkey
            have hnil : st.sessions.filter (sessionMatches d day) = [] := by
              rw [List.filter_eq_nil_iff]
              rw [List.find?_eq_none] at hfind
              exact hfind
            rw [hnil]
            simp [sessionMatches]
          · have hmiss : sessionMatches d day
                ({ studyPackId := p, date := today, cardsReviewed := 1,
                   averageQuality := (q : ℚ) } : StudySession) = false := by
              unfold sessionMatches
              rcases not_and_or.mp hkey with hd | hday
              · have : (p == d) = false := by
                  simpa using fun hpd => hd hpd.symm
                simp [this]
              · have : (today == day) = false := by
                  simpa using fun ht => hday ht.symm
                simp [this]
            rw [List.filter_cons_of_neg (by simp [hmiss])]
            simpa using ih d day

/-- C8 witness: the invariant at a concrete one-step state, and the two upsert
branches at concrete inputs. -/
theorem session_stats_upsert_witness :
    ((recordReview emptyState exDeck exCard 3 0 0).sessions.filter
        (sessionMatches exDeck 0)).length ≤ 1 ∧
    upsertSession exDeck 3 0 [] =
      [{ studyPackId := exDeck, date := 0, cardsReviewed := 1,
         averageQuality := (3 : ℚ) }] := by
  constructor
  · exact session_stats_upsert.1 _
      (Reachable.step emptyState exDeck exCard 3 0 0 Reachable.init) exDeck 0
  · simpa using (session_stats_upsert.2.2 [] exDeck 3 0).1 rfl

/-- Lower bound on every ease factor the update can produce. -/
theorem newEaseFactor_ge (ex : Option CardReview) (q : Int) :
    (13 / 10 : ℚ) ≤ newEaseFactor ex q := by
  cases ex with
  | none => norm_num [newEaseFactor]
  | some r => exact le_max_left _ _

/-- `Math.round` of anything at least `1.3` is at least `1`. -/
theorem jsRound_ge_one {x : ℚ} (h : (13 / 10 : ℚ) ≤ x) : 1 ≤ jsRound x := by
  unfold jsRound
  rw [Int.le_floor]
  push_cast
  linarith

theorem fallbackInterval_ge_one (ex : Option CardReview)
    (h : ∀ r, ex = some r → 1 ≤ r.interval) : 1 ≤ fallbackInterval ex := by
  cases ex with
  | none => norm_num [fallbackInterval]
  | some r =>
      have := h r rfl
      show 1 ≤ if r.interval = 0 then 1 else r.interval
      split <;> omega

theorem baseInterval_ge_one (ex : Option CardReview) (ef : ℚ) (reps : Int)
    (hef : (13 / 10 : ℚ) ≤ ef) (hfb : 1 ≤ fallbackInterval ex) :
    1 ≤ baseInterval ex ef reps := by
  unfold baseInterval
  split
  · omega
  · split
    · omega
    · apply jsRound_ge_one
      have h1 : (1 : ℚ) ≤ (fallbackInterval ex : ℚ) := by exact_mod_cast hfb
      calc (13 / 10 : ℚ) ≤ ef := hef
        _ = 1 * ef := (one_mul ef).symm
        _ ≤ (fallbackInterval ex : ℚ) * ef :=
            mul_le_mul_of_nonneg_right h1 (by linarith)

theorem adjustInterval_ge_one (q i : Int) (h : 1 ≤ i) :
    1 ≤ adjustInterval q i := by
  unfold adjustInterval
  split
  · exact le_max_left _ _
  · split
    · exact le_max_left _ _
    · split
      · exact h
      · split
        · apply jsRound_ge_one
          have h1 : (1 : ℚ) ≤ (i : ℚ) := by exact_mod_cast h
          calc (13 / 10 : ℚ) = 1 * (13 / 10) := (one_mul _).symm
            _ ≤ (i : ℚ) * (13 / 10) := mul_le_mul_of_nonneg_right h1 (by norm_num)
        · exact h

/-- C10: in every state reachable by `recordReview` calls with quality in
`[1,4]`, every stored record has an interval of at least one day, so its
`nextReview` is at least 24 hours after its `reviewDate`. -/
theorem reachable_interval_ge_one (st : SRState) (h : ReachableValid st) :
    ∀ r ∈ st.reviews, 1 ≤ r.interval ∧ r.reviewDate + msPerDay ≤ r.nextReview := by
  induction h with
  | init => intro r hr; simp at hr
  | step st p c q now today _ hq1 hq4 ih =>
      intro r hr
      have hr' : r ∈ (st.reviews.filter fun x => !reviewMatches p c x) ++
          [buildReview (findReview st.reviews p c) p c q now] := hr
      rw [List.mem_append] at hr'
      rcases hr' with hold | hnew
      · exact ih r (List.mem_of_mem_filter hold)
      · rw [List.mem_singleton] at hnew
        subst hnew
        have hfb : 1 ≤ fallbackInterval (findReview st.reviews p c) := by
          apply fallbackInterval_ge_one
          intro old hold
          exact (ih old (List.mem_of_find?_eq_some hold)).1
        have hint : 1 ≤ (buildReview (findReview st.reviews p c) p c q now).interval := by
          rw [buildReview_interval]
          exact adjustInterval_ge_one _ _
            (baseInterval_ge_one _ _ _ (newEaseFactor_ge _ _) hfb)
        refine ⟨hint, ?_⟩
        rw [buildReview_nextReview, buildReview_reviewDate]
        have hms : msPerDay = 86400000 := rfl
        set iv := (buildReview (findReview st.reviews p c) p c q now).interval
        rw [hms]
        omega

/-- C10 witness: the invariant read off the record produced by one valid
review on the empty store. -/
theorem reachable_interval_ge_one_witness :
    1 ≤ (buildReview none exDeck exCard 3 0).interval ∧
    (buildReview none exDeck exCard 3 0).reviewDate + msPerDay ≤
      (buildReview none exDeck exCard 3 0).nextReview := by
  have h := reachable_interval_ge_one (recordReview emptyState exDeck exCard 3 0 0)
    (ReachableValid.step emptyState exDeck exCard 3 0 0 ReachableValid.init
      (by decide) (by decide))
  exact h _ (by simp [recordReview, emptyState, findReview])

theorem pairwise_of_forall {α : Type} {R : α → α → Prop} (h : ∀ a b, R a b) :
    ∀ l : List α, l.Pairwise R
  | [] => List.Pairwise.nil
  | a :: l => List.Pairwise.cons (fun b _ => h a b) (pairwise_of_forall h l)

/-- With no stored reviews, every card is due and unreviewed, in input order
(the sort is the identity because every entry compares equal). -/
theorem getDueCards_nil_reviews (p : String) (cards : List Flashcard) (now : Int) :
    getDueCards [] p cards now =
      cards.map (fun c => { id := c.id, lastReview := none, nextReview := now,
                            interval := 0, repetitions := 0 }) := by
  unfold getDueCards
  have hfm : cards.filterMap (dueEntry [] p now) =
      cards.map (fun c => ({ id := c.id, lastReview := none, nextReview := now,
                             interval := 0, repetitions := 0 } : DueCard)) := by
    induction cards with
    | nil => rfl
    | cons c rest ih => simp [List.filterMap_cons, dueEntry, findReview, ih]
  rw [hfm]
  apply List.Sorted.insertionSort_eq
  show List.Pairwise DueLE _
  rw [List.pairwise_map]
  apply pairwise_of_forall
  intro a b
  simp [DueLE]

theorem upcomingAll_nil_reviews (p : String) (cards : List Flashcard) (now : Int) :
    upcomingAll [] p cards now = [] := by
  induction cards with
  | nil => rfl
  | cons c rest ih =>
      show List.filterMap _ (c :: rest) = []
      rw [List.filterMap_cons]
      exact ih

/-- C9: unparseable stored data behaves exactly like an absent key: every
engine operation sees an empty history — all cards unreviewed and due, no
upcoming cards, zero streak and zero today-stats, and `recordReview` starts
cold — and no exception is propagated (the catch branch is the total
function returning the empty list). -/
theorem malformed_store_cold_start :
    getReviews Stored.malformed = [] ∧
    getSessions Stored.malformed = [] ∧
    loadState Stored.malformed Stored.malformed = loadState Stored.absent Stored.absent ∧
    (∀ (deckId : String) (cards : List Flashcard) (now : Int),
      getDueCards (getReviews Stored.malformed) deckId cards now =
        cards.map (fun c => { id := c.id, lastReview := none, nextReview := now,
                              interval := 0, repetitions := 0 })) ∧
    (∀ (deckId : String) (cards : List Flashcard) (now : Int) (limit : Nat),
      getUpcomingCards (getReviews Stored.malformed) deckId cards now limit = []) ∧
    (∀ (deckId : String) (today : Int),
      calculateStreak (getSessions Stored.malformed) deckId today = 0) ∧
    (∀ (deckId : String) (today : Int),
      getTodayStats (getReviews Stored.malformed) (getSessions Stored.malformed)
          deckId today =
        { reviewed := 0, learned := 0, accuracy := 0, streak := 0 }) ∧
    (∀ (deckId cardId : String) (quality now today : Int),
      recordReview (loadState Stored.malformed Stored.malformed) deckId cardId
          quality now today =
        recordReview (loadState Stored.absent Stored.absent) deckId cardId
          quality now today) := by
  refine ⟨rfl, rfl, rfl, ?_, ?_, ?_, ?_, ?_⟩
  · intro deckId cards now
    exact getDueCards_nil_reviews deckId cards now
  · intro deckId cards now limit
    show ((upcomingAll [] deckId cards now).insertionSort UpLE).take limit = []
    rw [upcomingAll_nil_reviews]
    simp
  · intro deckId today
    rfl
  · intro deckId today
    rfl
  · intro deckId cardId quality now today
    rfl

/-- Unfolding rule for one step of the streak loop. -/
theorem streakLoop_cons (s : StudySession) (rest : List StudySession)
    (streak currentDate : Int) :
    streakLoop (s :: rest) streak currentDate =
      if (currentDate - s.date).fdiv msPerDay = streak ∨
          (streak = 0 ∧ (currentDate - s.date).fdiv msPerDay ≤ 1) then
        streakLoop rest (streak + 1) s.date
      else streak := rfl

/-- C4 counterexample: with daily stats on exactly the consecutive days T,
T-1 and T-2, `calculateStreak` returns 2, not the claimed 3: the loop moves
`currentDate` to the matched session but still compares `daysDiff` against
the running streak, so the third day fails `1 === 2` and the walk stops. -/
theorem calculateStreak_consecutive_counterexample :
    calculateStreak c4Consecutive exDeck 172800000 = 2 ∧
    calculateStreak c4Consecutive exDeck 172800000 ≠ 3 := by
  constructor
  · decide
  · decide

/-- C4 amended: sessions on exactly the consecutive days T, T-1, T-2 give a
streak of 2 (the chain condition `daysDiff === streak` is measured from the
previously matched session, so the third consecutive day fails `1 === 2`);
sessions on exactly T and T-2 (gap at T-1) give a streak of 1. -/
theorem calculateStreak_consecutive_and_gap (deckId : String) (T : Int)
    (n1 n2 n3 : Int) (a1 a2 a3 : ℚ) :
    calculateStreak
        [{ studyPackId := deckId, date := T, cardsReviewed := n1, averageQuality := a1 },
         { studyPackId := deckId, date := T - 86400000, cardsReviewed := n2,
           averageQuality := a2 },
         { studyPackId := deckId, date := T - 2 * 86400000, cardsReviewed := n3,
           averageQuality := a3 }] deckId T = 2 ∧
    calculateStreak
        [{ studyPackId := deckId, date := T, cardsReviewed := n1, averageQuality := a1 },
         { studyPackId := deckId, date := T - 2 * 86400000, cardsReviewed := n3,
           averageQuality := a3 }] deckId T = 1 := by
  have h0 : ∀ d : Int, (T - T).fdiv d = 0 := by
    intro d; rw [sub_self]; exact Int.zero_fdiv d
  have h1 : (T - (T - 86400000)).fdiv msPerDay = 1 := by
    have e : T - (T - 86400000) = 86400000 := by ring
    rw [e]; decide
  have h2 : ((T - 86400000) - (T - 2 * 86400000)).fdiv msPerDay = 1 := by
    have e : (T - 86400000) - (T - 2 * 86400000) = 86400000 := by ring
    rw [e]; decide
  have h3 : (T - (T - 2 * 86400000)).fdiv msPerDay = 2 := by
    have e : T - (T - 2 * 86400000) = 2 * 86400000 := by ring
    rw [e]; decide
  constructor
  · unfold calculateStreak
    rw [List.filter_cons_of_pos (by simp [beq_self_eq_true]),
      List.filter_cons_of_pos (by simp [beq_self_eq_true]),
      List.filter_cons_of_pos (by simp [beq_self_eq_true]), List.filter_nil]
    have hsorted : List.Sorted SessionGE
        [{ studyPackId := deckId, date := T, cardsReviewed := n1, averageQuality := a1 },
         { studyPackId := deckId, date := T - 86400000, cardsReviewed := n2,
           averageQuality := a2 },
         { studyPackId := deckId, date := T - 2 * 86400000, cardsReviewed := n3,
           averageQuality := a3 }] := by
      refine List.Pairwise.cons ?_ (List.Pairwise.cons ?_ (List.Pairwise.cons
        (fun b hb => absurd hb (List.not_mem_nil b)) List.Pairwise.nil))
      · intro b hb
        rcases List.mem_cons.mp hb with rfl | hb
        · show T - 86400000 ≤ T
          omega
        · rcases List.mem_cons.mp hb with rfl | hb
          · show T - 2 * 86400000 ≤ T
            omega
          · exact absurd hb (List.not_mem_nil b)
      · intro b hb
        rcases List.mem_cons.mp hb with rfl | hb
        · show T - 2 * 86400000 ≤ T - 86400000
          omega
        · exact absurd hb (List.not_mem_nil b)
    rw [List.Sorted.insertionSort_eq hsorted]
    rw [if_neg (by simp)]
    rw [streakLoop_cons, if_pos (Or.inl (h0 msPerDay))]
    rw [streakLoop_cons, if_pos (Or.inl (by rw [h1]; omega))]
    rw [streakLoop_cons, if_neg (by rw [h2]; omega)]
    omega
  · unfold calculateStreak
    rw [List.filter_cons_of_pos (by simp [beq_self_eq_true]),
      List.filter_cons_of_pos (by simp [beq_self_eq_true]), List.filter_nil]
    have hsorted : List.Sorted SessionGE
        [{ studyPackId := deckId, date := T, cardsReviewed := n1, averageQuality := a1 },
         { studyPackId := deckId, date := T - 2 * 86400000, cardsReviewed := n3,
           averageQuality := a3 }] := by
      refine List.Pairwise.cons ?_ (List.Pairwise.cons
        (fun b hb => absurd hb (List.not_mem_nil b)) List.Pairwise.nil)
      intro b hb
      rcases List.mem_cons.mp hb with rfl | hb
      · show T - 2 * 86400000 ≤ T
        omega
      · exact absurd hb (List.not_mem_nil b)
    rw [List.Sorted.insertionSort_eq hsorted]
    rw [if_neg (by simp)]
    rw [streakLoop_cons, if_pos (Or.inl (h0 msPerDay))]
    rw [streakLoop_cons, if_neg (by rw [h3]; omega)]
    omega

theorem dueEntry_of_none {reviews : List CardReview} {p : String} {now : Int}
    {card : Flashcard} (h : findReview reviews p card.id = none) :
    dueEntry reviews p now card =
      some { id := card.id, lastReview := none, nextReview := now,
             interval := 0, repetitions := 0 } := by
  unfold dueEntry
  rw [h]

theorem dueEntry_of_due {reviews : List CardReview} {p : String} {now : Int}
    {card : Flashcard} {r : CardReview} (h : findReview reviews p card.id = some r)
    (hle : r.nextReview ≤ now) :
    dueEntry reviews p now card =
      some { id := card.id, lastReview := some r.reviewDate,
             nextReview := r.nextReview, interval := r.interval,
             repetitions := r.repetitions } := by
  simp [dueEntry, h, hle]

theorem dueEntry_of_future {reviews : List CardReview} {p : String} {now : Int}
    {card : Flashcard} {r : CardReview} (h : findReview reviews p card.id = some r)
    (hgt : now < r.nextReview) : dueEntry reviews p now card = none := by
  simp only [dueEntry, h]
  rw [if_neg (by omega)]

theorem upcomingEntry_of_future {reviews : List CardReview} {p : String}
    {now : Int} {card : Flashcard} {r : CardReview}
    (h : findReview reviews p card.id = some r) (hgt : now < r.nextReview) :
    upcomingEntry reviews p now card =
      some { id := card.id, nextReview := r.nextReview, interval := r.interval } := by
  simp [upcomingEntry, h, hgt]

theorem upcomingEntry_of_none {reviews : List CardReview} {p : String}
    {now : Int} {card : Flashcard} (h : findReview reviews p card.id = none) :
    upcomingEntry reviews p now card = none := by
  simp [upcomingEntry, h]

theorem upcomingEntry_of_past {reviews : List CardReview} {p : String}
    {now : Int} {card : Flashcard} {r : CardReview}
    (h : findReview reviews p card.id = some r) (hle : r.nextReview ≤ now) :
    upcomingEntry reviews p now card = none := by
  simp only [upcomingEntry, h]
  rw [if_neg (by omega)]

/-- What a due entry tells about its card's stored review. -/
theorem dueEntry_some_cases {reviews : List CardReview} {p : String} {now : Int}
    {card : Flashcard} {d : DueCard} (h : dueEntry reviews p now card = some d) :
    d.id = card.id ∧ (findReview reviews p card.id = none ∨
      ∃ r, findReview reviews p card.id = some r ∧ r.nextReview ≤ now) := by
  cases hf : findReview reviews p card.id with
  | none =>
      rw [dueEntry_of_none hf] at h
      obtain rfl := Option.some.inj h
      exact ⟨rfl, Or.inl rfl⟩
  | some r =>
      by_cases hle : r.nextReview ≤ now
      · rw [dueEntry_of_due hf hle] at h
        obtain rfl := Option.some.inj h
        exact ⟨rfl, Or.inr ⟨r, rfl, hle⟩⟩
      · rw [dueEntry_of_future hf (by omega)] at h
        exact absurd h (by simp)

/-- What an upcoming entry tells about its card's stored review. -/
theorem upcomingEntry_some_cases {reviews : List CardReview} {p : String}
    {now : Int} {card : Flashcard} {u : UpcomingCard}
    (h : upcomingEntry reviews p now card = some u) :
    u.id = card.id ∧ ∃ r, findReview reviews p card.id = some r ∧ now < r.nextReview := by
  cases hf : findReview reviews p card.id with
  | none =>
      rw [upcomingEntry_of_none hf] at h
      exact absurd h (by simp)
  | some r =>
      by_cases hgt : now < r.nextReview
      · rw [upcomingEntry_of_future hf hgt] at h
        obtain rfl := Option.some.inj h
        exact ⟨rfl, r, rfl, hgt⟩
      · rw [upcomingEntry_of_past hf (by omega)] at h
        exact absurd h (by simp)

theorem mem_getDueCards {reviews : List CardReview} {p : String}
    {cards : List Flashcard} {now : Int} {d : DueCard} :
    d ∈ getDueCards reviews p cards now ↔
      ∃ card, card ∈ cards ∧ dueEntry reviews p now card = some d := by
  unfold getDueCards
  rw [(List.perm_insertionSort DueLE _).mem_iff, List.mem_filterMap]

theorem mem_upcomingSorted {reviews : List CardReview} {p : String}
    {cards : List Flashcard} {now : Int} {u : UpcomingCard} :
    u ∈ (upcomingAll reviews p cards now).insertionSort UpLE ↔
      ∃ card, card ∈ cards ∧ upcomingEntry reviews p now card = some u := by
  rw [(List.perm_insertionSort UpLE _).mem_iff]
  exact List.mem_filterMap

/-- The due comparator implies the claim's ordering description. -/
theorem dueLE_imp {a b : DueCard} (h : DueLE a b) :
    (b.lastReview = none → a.lastReview = none) ∧
      (a.lastReview ≠ none → b.lastReview ≠ none → a.nextReview ≤ b.nextReview) := by
  unfold DueLE at h
  by_cases ha : a.lastReview = none
  · by_cases hb : b.lastReview = none
    · rw [if_neg (by simp [hb]), if_neg (by simp [ha])] at h
      exact ⟨fun _ => ha, fun hna => absurd ha hna⟩
    · exact ⟨fun hbn => absurd hbn hb, fun hna => absurd ha hna⟩
  · by_cases hb : b.lastReview = none
    · rw [if_neg (by simp [ha]), if_pos ⟨ha, hb⟩] at h
      exact absurd h not_false
    · rw [if_neg (by simp [ha]), if_neg (by simp [hb])] at h
      exact ⟨fun hbn => absurd hbn hb, fun _ _ => h⟩

/-- C7 (amended): over any store, deck, card list, time and limit, the due
and upcoming lists are disjoint; a past-due card is never excluded from the
due list; the due list puts never-reviewed cards first and is ascending in
`nextReview` among reviewed cards; the upcoming list is ascending in
`nextReview` and has length at most `limit`; and — provided at most `limit`
cards are scheduled in the future — the two lists together cover every card
(full coverage can fail only through the `slice(0, limit)` truncation). -/
theorem due_upcoming_partition (reviews : List CardReview) (deckId : String)
    (cards : List Flashcard) (now : Int) (limit : Nat) :
    (∀ d, d ∈ getDueCards reviews deckId cards now →
      ∀ u, u ∈ getUpcomingCards reviews deckId cards now limit → d.id ≠ u.id) ∧
    (∀ card, card ∈ cards → ∀ r, findReview reviews deckId card.id = some r →
      r.nextReview ≤ now →
      ∃ d, d ∈ getDueCards reviews deckId cards now ∧ d.id = card.id) ∧
    ((upcomingAll reviews deckId cards now).length ≤ limit →
      ∀ card, card ∈ cards →
        (∃ d, d ∈ getDueCards reviews deckId cards now ∧ d.id = card.id) ∨
        (∃ u, u ∈ getUpcomingCards reviews deckId cards now limit ∧ u.id = card.id)) ∧
    (getDueCards reviews deckId cards now).Pairwise (fun a b =>
      (b.lastReview = none → a.lastReview = none) ∧
      (a.lastReview ≠ none → b.lastReview ≠ none → a.nextReview ≤ b.nextReview)) ∧
    (getUpcomingCards reviews deckId cards now limit).Pairwise
      (fun a b => a.nextReview ≤ b.nextReview) ∧
    (getUpcomingCards reviews deckId cards now limit).length ≤ limit := by
  have hupmem : ∀ u, u ∈ getUpcomingCards reviews deckId cards now limit →
      ∃ card, card ∈ cards ∧ upcomingEntry reviews deckId now card = some u := by
    intro u hu
    exact mem_upcomingSorted.mp (List.take_subset _ _ hu)
  refine ⟨?_, ?_, ?_, ?_, ?_, ?_⟩
  · intro d hd u hu heq
    obtain ⟨cd, _, hde⟩ := mem_getDueCards.mp hd
    obtain ⟨cu, _, hue⟩ := hupmem u hu
    obtain ⟨hdid, hdcond⟩ := dueEntry_some_cases hde
    obtain ⟨huid, r', hufind, hugt⟩ := upcomingEntry_some_cases hue
    have hsame : cd.id = cu.id := by rw [← hdid, ← huid, heq]
    rw [← hsame] at hufind
    rcases hdcond with hnone | ⟨r, hfind, hle⟩
    · rw [hnone] at hufind
      exact absurd hufind (by simp)
    · rw [hfind] at hufind
      obtain rfl := Option.some.inj hufind
      omega
  · intro card hcard r hfind hle
    exact ⟨_, mem_getDueCards.mpr ⟨card, hcard, dueEntry_of_due hfind hle⟩, rfl⟩
  · intro hlen card hcard
    cases hf : findReview reviews deckId card.id with
    | none =>
        exact Or.inl ⟨_, mem_getDueCards.mpr ⟨card, hcard, dueEntry_of_none hf⟩, rfl⟩
    | some r =>
        by_cases hle : r.nextReview ≤ now
        · exact Or.inl ⟨_, mem_getDueCards.mpr ⟨card, hcard, dueEntry_of_due hf hle⟩, rfl⟩
        · refine Or.inr ⟨{ id := card.id, nextReview := r.nextReview,
                           interval := r.interval }, ?_, rfl⟩
          have hmem : ({ id := card.id, nextReview := r.nextReview,
                         interval := r.interval } : UpcomingCard) ∈
              (upcomingAll reviews deckId cards now).insertionSort UpLE :=
            mem_upcomingSorted.mpr ⟨card, hcard,
              upcomingEntry_of_future hf (by omega)⟩
          have hlen' : ((upcomingAll reviews deckId cards now).insertionSort
              UpLE).length ≤ limit := by
            rw [(List.perm_insertionSort UpLE _).length_eq]
            exact hlen
          show _ ∈ ((upcomingAll reviews deckId cards now).insertionSort UpLE).take limit
          rw [List.take_of_length_le hlen']
          exact hmem
  · have hs : List.Pairwise DueLE
        ((cards.filterMap (dueEntry reviews deckId now)).insertionSort DueLE) :=
      List.sorted_insertionSort DueLE _
    exact hs.imp dueLE_imp
  · have hs : List.Pairwise UpLE
        ((upcomingAll reviews deckId cards now).insertionSort UpLE) :=
      List.sorted_insertionSort UpLE _
    have hs' : ((upcomingAll reviews deckId cards now).insertionSort UpLE).Pairwise
        (fun a b => a.nextReview ≤ b.nextReview) :=
      hs.imp (fun h => h)
    exact hs'.sublist (List.take_sublist _ _)
  · show (((upcomingAll reviews deckId cards now).insertionSort UpLE).take limit).length ≤ limit
    rw [List.length_take]
    exact Nat.min_le_left _ _

/-- C7 witness: the theorem at the concrete fixture store with a limit large
enough for coverage; the coverage hypothesis is discharged by evaluation. -/
theorem due_upcoming_partition_witness :
    (getUpcomingCards c7Reviews exDeck c7Cards 0 2).length ≤ 2 ∧
    ((∃ d, d ∈ getDueCards c7Reviews exDeck c7Cards 0 ∧ d.id = cardB) ∨
     (∃ u, u ∈ getUpcomingCards c7Reviews exDeck c7Cards 0 2 ∧ u.id = cardB)) := by
  refine ⟨(due_upcoming_partition c7Reviews exDeck c7Cards 0 2).2.2.2.2.2, ?_⟩
  exact (due_upcoming_partition c7Reviews exDeck c7Cards 0 2).2.2.1 (by decide)
    { id := cardB } (by decide)

/-- C7 counterexample: with two future-scheduled cards and `limit = 1`, the
due list is empty and the upcoming list holds a single card, so the second
card (`card2`) appears in neither list — the two lists do not cover every
card that has a review record. -/
theorem due_upcoming_coverage_counterexample :
    getDueCards c7Reviews exDeck c7Cards 0 = [] ∧
    (getUpcomingCards c7Reviews exDeck c7Cards 0 1).length = 1 ∧
    ¬ ((∃ d, d ∈ getDueCards c7Reviews exDeck c7Cards 0 ∧ d.id = cardB) ∨
       (∃ u, u ∈ getUpcomingCards c7Reviews exDeck c7Cards 0 1 ∧ u.id = cardB)) := by
  refine ⟨by decide, by decide, by decide⟩

end StudyForge
